import Mathlib

/-!
Verification of the datahub-custom-code tokenization/classification system.

The definitions in this file are shallow embeddings of the Python sources:
  * `src/action/token_logic.py`  (token codec)
  * `src/services/actions-tokenize/actions_tokenize/postgres.py` (executor)
  * `src/services/actions-tokenize/actions_tokenize/action.py` (coordinator)
  * `src/action/run_manager.py` (coordinator)
  * `src/services/pii-classifier/pii_classifier/rules_loader.py` (rule engine)
  * `src/services/pii-classifier/pii_classifier/classifier.py` (classifier)
  * `src/action/models.py` (DatasetRef URN parsing)
-/

/-! ### Base64 (model of Python `base64.b64encode` / RFC 4648) -/

/-- The standard base64 alphabet, as used by Python `base64.b64encode`. -/
def b64Alphabet : List Char :=
  "ABCDEFGHIJKLMNOPQRSTUVWXYZabcdefghijklmnopqrstuvwxyz0123456789+/".toList

/-- Character for a 6-bit group. -/
def b64Char (n : Nat) : Char := b64Alphabet.getD n 'A'

/-- Index of a character in a character list. -/
def charIndexIn : List Char → Char → Option Nat
  | [], _ => none
  | a :: rest, c => if a = c then some 0 else (charIndexIn rest c).map (· + 1)

/-- Inverse lookup into the base64 alphabet. -/
def b64CharIndex (c : Char) : Option Nat := charIndexIn b64Alphabet c

/-- Base64-encode a byte list (bytes are `Nat` values `< 256`), with `=` padding,
exactly as `base64.b64encode` does. -/
def b64Encode : List Nat → List Char
  | [] => []
  | [a] => [b64Char (a / 4), b64Char (a % 4 * 16), '=', '=']
  | [a, b] => [b64Char (a / 4), b64Char (a % 4 * 16 + b / 16), b64Char (b % 16 * 4), '=']
  | a :: b :: c :: rest =>
      b64Char (a / 4) :: b64Char (a % 4 * 16 + b / 16) :: b64Char (b % 16 * 4 + c / 64) ::
        b64Char (c % 64) :: b64Encode rest

/-- Map base64 characters to their sextet values, failing on foreign characters. -/
def b64Indices : List Char → Option (List Nat)
  | [] => some []
  | c :: cs =>
      match b64CharIndex c, b64Indices cs with
      | some n, some ns => some (n :: ns)
      | _, _ => none

/-- Reassemble bytes from sextet values (`b64Decode` helper). -/
def sextetsToBytes : List Nat → Option (List Nat)
  | [] => some []
  | [_] => none
  | [n1, n2] => some [n1 * 4 + n2 / 16]
  | [n1, n2, n3] => some [n1 * 4 + n2 / 16, n2 % 16 * 16 + n3 / 4]
  | n1 :: n2 :: n3 :: n4 :: rest =>
      (sextetsToBytes rest).map
        (fun tl => (n1 * 4 + n2 / 16) :: (n2 % 16 * 16 + n3 / 4) :: (n3 % 4 * 64 + n4) :: tl)

/-- Base64 decoding (model of Python `base64.b64decode`): drop the `=` padding
and reassemble 8-bit bytes from the 6-bit groups. -/
def b64Decode (cs : List Char) : Option (List Nat) :=
  match b64Indices (cs.filter (fun c => c ≠ '=')) with
  | some ns => sextetsToBytes ns
  | none => none

/-! ### UTF-8 (model of Python `str.encode("utf-8")` / `bytes.decode("utf-8")`) -/

/-- UTF-8 encoding of a single code point. -/
def utf8EncodeChar (n : Nat) : List Nat :=
  if n < 0x80 then [n]
  else if n < 0x800 then [0xC0 + n / 64, 0x80 + n % 64]
  else if n < 0x10000 then [0xE0 + n / 4096, 0x80 + n / 64 % 64, 0x80 + n % 64]
  else [0xF0 + n / 262144, 0x80 + n / 4096 % 64, 0x80 + n / 64 % 64, 0x80 + n % 64]

/-- UTF-8 encoding of a character list (model of `value.encode("utf-8")`). -/
def utf8Encode : List Char → List Nat
  | [] => []
  | c :: cs => utf8EncodeChar c.toNat ++ utf8Encode cs

/-- Streaming UTF-8 decoder to code points: the state is `none` between
sequences or `some (k, acc)` while `k` continuation bytes are still expected
with high bits `acc` already accumulated.  A leading byte dispatches on its
range, a continuation byte must lie in `[0x80, 0xC0)`, and a sequence left
unfinished at the end of input is an error. -/
def utf8DecodeLoop : Option (Nat × Nat) → List Nat → Option (List Nat)
  | none, [] => some []
  | some _, [] => none
  | none, b :: l =>
      if b < 0x80 then (utf8DecodeLoop none l).map (fun ns => b :: ns)
      else if b < 0xC0 then none
      else if b < 0xE0 then utf8DecodeLoop (some (1, b - 0xC0)) l
      else if b < 0xF0 then utf8DecodeLoop (some (2, b - 0xE0)) l
      else if b < 0xF8 then utf8DecodeLoop (some (3, b - 0xF0)) l
      else none
  | some (k, acc), b :: l =>
      if 0x80 ≤ b ∧ b < 0xC0 then
        if k = 1 then (utf8DecodeLoop none l).map (fun ns => (acc * 64 + (b - 0x80)) :: ns)
        else utf8DecodeLoop (some (k - 1, acc * 64 + (b - 0x80))) l
      else none

/-- UTF-8 decoding (model of `bytes.decode("utf-8")`). -/
def utf8Decode (l : List Nat) : Option (List Char) :=
  (utf8DecodeLoop none l).map (fun ns => ns.map Char.ofNat)

/-! ### Token codec (`src/action/token_logic.py`) -/

/-- `generate_token(value)`:
`TOKEN_PREFIX + base64.b64encode(value.encode("utf-8")).decode("ascii") + TOKEN_SUFFIX`. -/
def generate_token (value : String) : String :=
  String.mk ("tok_".toList ++ b64Encode (utf8Encode value.toList) ++ "_poc".toList)

/-- Character class `[A-Za-z0-9+/=]` of `TOKEN_REGEX`. -/
def tokenBodyChar (c : Char) : Bool :=
  ('A' ≤ c && c ≤ 'Z') || ('a' ≤ c && c ≤ 'z') || ('0' ≤ c && c ≤ '9') ||
    c = '+' || c = '/' || c = '='

/-- `^tok_[A-Za-z0-9+/=]+_poc$` against a full character list: since `_` is
not in the character class, the regex accepts exactly the strings of the form
`tok_` ++ body ++ `_poc` with a nonempty body drawn from the class. -/
def tokenListMatch (cs : List Char) : Bool :=
  decide (8 < cs.length) && cs.take 4 = "tok_".toList &&
    cs.drop (cs.length - 4) = "_poc".toList &&
    ((cs.drop 4).take (cs.length - 8)).all tokenBodyChar

/-- `TOKEN_REGEX.match(s)`: Python `$` also accepts one trailing newline. -/
def tokenRegexMatch (s : String) : Bool :=
  tokenListMatch (if s.toList.getLast? = some '\n' then s.toList.dropLast else s.toList)

/-- `is_token(value)`: `None` is never a token, otherwise match `TOKEN_REGEX`. -/
def is_token : Option String → Bool
  | none => false
  | some s => tokenRegexMatch s

/-- Modelled from the spec: the reversible decode direction — strip the `tok_`
prefix and `_poc` suffix, base64-decode the body, then UTF-8-decode the bytes
(missing from `src/action/token_logic.py`; the e2e tests decode this way). -/
def decodeTokenBody (cs : List Char) : Option (List Char) :=
  if 8 ≤ cs.length ∧ cs.take 4 = "tok_".toList ∧ cs.drop (cs.length - 4) = "_poc".toList then
    match b64Decode ((cs.drop 4).take (cs.length - 8)) with
    | some bytes => utf8Decode bytes
    | none => none
  else none

/-- The decode direction as a `String` function. -/
def decode_token (tok : String) : Option String :=
  (decodeTokenBody tok.toList).map String.mk

/-! ### Tokenization executor
(`src/services/actions-tokenize/actions_tokenize/postgres.py`)

A Postgres table is modelled per column: each `PgColumnState` carries the
`information_schema` metadata (`data_type`, `udt_name`) and the list of cell
values of that column down the rows (`none` = SQL NULL).  The regex matching
performed by the database for `!~ token_pattern` is an external collaborator
and is modelled by a predicate `reMatches : String → Bool`; the SQL token
expression built by `_make_token_expression` is modelled by
`tokenExpr : String → String`. -/

structure TokenizeColumn where
  field_path : String
  column : String
  pii_tags : List String
deriving DecidableEq, Repr

structure ColumnTokenizationPlan where
  column : TokenizeColumn
  rows_to_update : Nat
  data_type : Option String
deriving DecidableEq, Repr

structure TokenizationOutcome where
  total_rows : Nat
  per_column : List ColumnTokenizationPlan
deriving DecidableEq, Repr

structure PgColumnState where
  name : String
  dataType : String
  udtName : String
  cells : List (Option String)
deriving DecidableEq, Repr

abbrev PgTable := List PgColumnState

/-- `_TEXTUAL_DATA_TYPES`. -/
def textualDataTypes : List String := ["text", "character varying", "character", "name"]

/-- `_TEXTUAL_UDT_NAMES`. -/
def textualUdtNames : List String := ["varchar", "text", "bpchar", "citext"]

/-- `_is_textual_column`: `data_type in _TEXTUAL_DATA_TYPES or udt_name in _TEXTUAL_UDT_NAMES`. -/
def isTextualState (st : PgColumnState) : Bool :=
  textualDataTypes.contains st.dataType || textualUdtNames.contains st.udtName

/-- Fetch the `information_schema.columns` row of a column (Postgres column
names are unique per table, so `find?` models the single-row fetch). -/
def lookupColumn (t : PgTable) (name : String) : Option PgColumnState :=
  t.find? (fun st => st.name = name)

/-- The count/update predicate `column IS NOT NULL AND (column)::text !~ %s`. -/
def cellNeedsUpdate (reMatches : String → Bool) : Option String → Bool
  | none => false
  | some v => ! reMatches v

/-- `_count_rows_to_tokenize`: `SELECT COUNT(*) ... WHERE <predicate>`. -/
def countRowsToTokenize (reMatches : String → Bool) (cells : List (Option String)) : Nat :=
  (cells.filter (cellNeedsUpdate reMatches)).length

/-- Model of `_make_token_expression(column, use_base64=True)` applied to the
text of a cell value `v`:
`'tok_' || replace(encode(convert_to(v, 'UTF8'), 'base64'), E'\n', '') || '_poc'`.
`convert_to(v,'UTF8')` yields the UTF-8 bytes and `encode(...,'base64')` the
standard base64 text (the `replace` strips the newlines Postgres inserts every
76 characters), so on a textual column this is exactly `generate_token`. -/
def make_token_expression_base64 (v : String) : String := generate_token v

/-- Effect of `UPDATE ... SET col = token_expr WHERE <predicate>` on the cells
of the updated column. -/
def updateCells (reMatches : String → Bool) (tokenExpr : String → String) :
    List (Option String) → List (Option String) :=
  List.map (fun cell =>
    match cell with
    | none => none
    | some v => if reMatches v then some v else some (tokenExpr v))

/-- Effect of the `UPDATE` on the whole table (only the named column changes). -/
def updateTable (reMatches : String → Bool) (tokenExpr : String → String)
    (t : PgTable) (name : String) : PgTable :=
  t.map (fun st =>
    if st.name = name then { st with cells := updateCells reMatches tokenExpr st.cells } else st)

/-- `_execute_update`: in dry-run mode no SQL is issued and `0` is returned;
otherwise the `UPDATE` runs and `cur.rowcount` (the number of rows matching the
predicate at execution time) is returned. -/
def executeUpdate (reMatches : String → Bool) (tokenExpr : String → String)
    (dryRun : Bool) (t : PgTable) (name : String) : Nat × PgTable :=
  if dryRun then (0, t)
  else
    (countRowsToTokenize reMatches (((lookupColumn t name).map PgColumnState.cells).getD []),
      updateTable reMatches tokenExpr t name)

/-- The per-column loop of `PostgresExecutor.tokenize`, threading the table
state, the `total_rows` accumulator and the `per_column` list (the loop body's
locals `rows_to_update` and `updated_rows` are written out in full). -/
def tokenizeLoop (reMatches : String → Bool) (tokenExpr : String → String) (dryRun : Bool) :
    List TokenizeColumn → PgTable → Nat → List ColumnTokenizationPlan →
    Except String (Nat × List ColumnTokenizationPlan × PgTable)
  | [], t, total, acc => .ok (total, acc.reverse, t)
  | col :: rest, t, total, acc =>
    match lookupColumn t col.column with
    | none => .error ("Column metadata not found for " ++ col.column ++ ".")
    | some st =>
      if isTextualState st then
        if 0 < countRowsToTokenize reMatches st.cells then
          if dryRun then
            tokenizeLoop reMatches tokenExpr dryRun rest
              (executeUpdate reMatches tokenExpr dryRun t col.column).2
              (total + countRowsToTokenize reMatches st.cells)
              (⟨col, countRowsToTokenize reMatches st.cells, some st.dataType⟩ :: acc)
          else
            tokenizeLoop reMatches tokenExpr dryRun rest
              (executeUpdate reMatches tokenExpr dryRun t col.column).2
              (total + countRowsToTokenize reMatches st.cells -
                countRowsToTokenize reMatches st.cells +
                (executeUpdate reMatches tokenExpr dryRun t col.column).1)
              (⟨col, (executeUpdate reMatches tokenExpr dryRun t col.column).1,
                some st.dataType⟩ :: acc)
        else
          tokenizeLoop reMatches tokenExpr dryRun rest t
            (total + countRowsToTokenize reMatches st.cells)
            (⟨col, countRowsToTokenize reMatches st.cells, some st.dataType⟩ :: acc)
      else
        tokenizeLoop reMatches tokenExpr dryRun rest t total (⟨col, 0, some st.dataType⟩ :: acc)

/-- `PostgresExecutor.tokenize`: resolve the tenant credential, run the
per-column loop in one transaction, commit on success (or keep nothing of the
transaction on dry-run/rollback), and re-raise any error after rollback.  The
returned table is the database state visible after the call. -/
def tokenize (reMatches : String → Bool) (tokenExpr : String → String)
    (tenants : List String) (tenant_id : String)
    (columns : List TokenizeColumn) (dryRun : Bool) (t : PgTable) :
    Except String (TokenizationOutcome × PgTable) :=
  if tenant_id ∈ tenants then
    match tokenizeLoop reMatches tokenExpr dryRun columns t 0 [] with
    | .ok (total, plans, t1) => .ok (⟨total, plans⟩, if dryRun then t else t1)
    | .error e => .error e
  else
    .error ("No Postgres credentials configured for tenant " ++ tenant_id ++ ".")

/-! ### Rule engine (`src/services/pii-classifier/pii_classifier/rules_loader.py`)

Python floats appear only through `+`, `max`, `min` and order comparisons, so
weights and scores are embedded as rationals; the compiled regexes
`re.Pattern.search` are external collaborators modelled as predicates. -/

structure Rule where
  name : String
  tag : String
  name_patterns : List (String → Bool)
  value_pattern : Option (String → Bool)
  min_confidence : ℚ
  name_weight : ℚ
  value_weight : ℚ
  value_match_ratio : ℚ

structure RuleEvaluation where
  rule : Rule
  name_match : Bool
  value_ratio : ℚ
  confidence : ℚ
  evaluated_values : Nat

/-- `Rule.evaluate(column_name, samples)` transcribed line by line. -/
def Rule.evaluate (r : Rule) (column_name : String) (samples : List (Option String)) :
    RuleEvaluation :=
  let normalized_name := column_name.toLower
  let name_hit := r.name_patterns.any (fun p => p normalized_name)
  let values := ((samples.filterMap id).map String.trim).filter (fun v => v ≠ "")
  let total := values.length
  let matchCount :=
    match r.value_pattern with
    | some p => (values.filter p).length
    | none => 0
  let ratio : ℚ := if total = 0 then 0 else (matchCount : ℚ) / (total : ℚ)
  let score : ℚ := if name_hit then r.name_weight else 0
  let score : ℚ :=
    if r.value_pattern.isNone && name_hit then max score r.min_confidence
    else if r.value_pattern.isSome && decide (r.value_match_ratio ≤ ratio) then
      score + r.value_weight
    else score
  let score := min score 1
  ⟨r, name_hit, ratio, score, total⟩

/-- `RuleEvaluation.is_match`: `confidence >= rule.min_confidence`. -/
def RuleEvaluation.is_match (e : RuleEvaluation) : Bool :=
  decide (e.rule.min_confidence ≤ e.confidence)

/-- Clamp to the interval `[0, 1]`. -/
def clamp01 (q : ℚ) : ℚ := max 0 (min q 1)

/-- Spec §4.1 step (a): name-match = any name-pattern reMatches the lower-cased name. -/
def specNameMatch (r : Rule) (column_name : String) : Bool :=
  r.name_patterns.any (fun p => p column_name.toLower)

/-- Spec §4.1 step (b): value-ratio = matching non-empty samples over total
non-empty samples, `0` when there are none. -/
def specValueRatio (r : Rule) (samples : List (Option String)) : ℚ :=
  let usable := ((samples.filterMap id).map String.trim).filter (fun v => v ≠ "")
  if usable.length = 0 then 0
  else
    match r.value_pattern with
    | some p => ((usable.filter p).length : ℚ) / (usable.length : ℚ)
    | none => 0

/-- Spec §4.1 step (c): score = name-weight if name-match; if no value-pattern
and name-match, score = max(score, min-confidence); if a value-pattern exists
and value-ratio ≥ value-match-ratio, add value-weight. -/
def specScore (r : Rule) (nameMatch : Bool) (ratio : ℚ) : ℚ :=
  let base : ℚ := if nameMatch then r.name_weight else 0
  match r.value_pattern with
  | none => if nameMatch then max base r.min_confidence else base
  | some _ => if r.value_match_ratio ≤ ratio then base + r.value_weight else base

/-- The evaluation algorithm exactly as the claim states it, with step (d)
read literally: the resulting confidence is clamped to `[0, 1]`. -/
def specRuleEvaluate (r : Rule) (column_name : String) (samples : List (Option String)) :
    RuleEvaluation :=
  let nm := specNameMatch r column_name
  let ratio := specValueRatio r samples
  let usable := ((samples.filterMap id).map String.trim).filter (fun v => v ≠ "")
  ⟨r, nm, ratio, clamp01 (specScore r nm ratio), usable.length⟩

/-- The evaluation algorithm with step (d) corrected to what the code computes:
only an upper clamp `min(score, 1.0)` is applied. -/
def specRuleEvaluateUpper (r : Rule) (column_name : String) (samples : List (Option String)) :
    RuleEvaluation :=
  let nm := specNameMatch r column_name
  let ratio := specValueRatio r samples
  let usable := ((samples.filterMap id).map String.trim).filter (fun v => v ≠ "")
  ⟨r, nm, ratio, min (specScore r nm ratio) 1, usable.length⟩

/-- A rule the loader accepts (`name_weight + value_weight > 0`, at least one
name pattern) whose name weight is negative. -/
def counterRule : Rule where
  name := "neg_weight"
  tag := "urn:li:tag:neg_weight"
  name_patterns := [fun _ => true]
  value_pattern := some (fun _ => false)
  min_confidence := 3 / 5
  name_weight := -(1 / 2)
  value_weight := 1
  value_match_ratio := 1 / 2

/-! ### Classifier workflow (`src/services/pii-classifier/pii_classifier/classifier.py`)

Each column of the scan is modelled as its name together with the outcome of
`sampler.sample_values` for it: either a raised exception (`.error`) or the
sampled values.  Tag emission is modelled as pure. -/

/-- The filter in `PIIClassifier._evaluate`:
`[value for value in samples if value is not None and str(value).strip()]`. -/
def filterUsableSamples (samples : List (Option String)) : List (Option String) :=
  samples.filter (fun s =>
    match s with
    | none => false
    | some v => v.trim ≠ "")

/-- `PIIClassifier._evaluate`: skip under-sampled columns, otherwise keep the
best `is_match` evaluation by strictly larger confidence (ties keep the
earlier rule). -/
def classifierBest (rules : List Rule) (minValueSamples : Nat) (column_name : String)
    (samples : List (Option String)) : Option RuleEvaluation :=
  let filtered := filterUsableSamples samples
  if filtered.length < minValueSamples then none
  else
    rules.foldl (fun best rule =>
      let ev := rule.evaluate column_name filtered
      if ev.is_match then
        match best with
        | none => some ev
        | some b => if b.confidence < ev.confidence then some ev else some b
      else best) none

/-- The per-column loop of `PIIClassifier.run`: a raised sampling exception
propagates (`.error`), an empty sample list skips the column, and otherwise the
best matching evaluation (if any) is recorded. -/
def classifierRunLoop (rules : List Rule) (minValueSamples : Nat) :
    List (String × Except String (List (Option String))) →
    Except String (List (String × RuleEvaluation))
  | [] => .ok []
  | (name, sres) :: rest =>
    match sres with
    | .error e => .error e
    | .ok samples =>
      if samples.isEmpty then classifierRunLoop rules minValueSamples rest
      else
        match classifierBest rules minValueSamples name samples with
        | none => classifierRunLoop rules minValueSamples rest
        | some ev =>
          match classifierRunLoop rules minValueSamples rest with
          | .error e => .error e
          | .ok tail => .ok ((name, ev) :: tail)

/-- `PIIClassifier.run`: with no rules the run exits immediately, otherwise the
columns are processed in order. -/
def classifierRun (rules : List Rule) (minValueSamples : Nat)
    (cols : List (String × Except String (List (Option String)))) :
    Except String (List (String × RuleEvaluation)) :=
  if rules.isEmpty then .ok [] else classifierRunLoop rules minValueSamples cols

/-! ### Tokenize action coordinator
(`src/services/actions-tokenize/actions_tokenize/action.py`, `act` after the
event has been resolved and the PII columns collected) -/

structure CompletionRecord where
  status : String
  rows_affected_total : Nat
  error : Option String
  columns_rows : List (String × Nat)
deriving DecidableEq, Repr

inductive RunEmission
  | ensured_metadata
  | run_started (columns : List TokenizeColumn)
  | run_completed (rec : CompletionRecord)
deriving DecidableEq, Repr

/-- `_complete_run`: per-column rows from the outcome (`0` for columns without
a plan; a duplicated field path keeps the last plan, as the Python dict does),
total rows and status `SUCCESS`/`FAILURE`. -/
def complete_run (columns : List TokenizeColumn) (outcome : Option TokenizationOutcome)
    (error : Option String) : CompletionRecord :=
  let per_column := (match outcome with | some o => o.per_column | none => [])
  let rows_total := (match outcome with | some o => o.total_rows | none => 0)
  { status := if error.isNone then "SUCCESS" else "FAILURE"
    rows_affected_total := rows_total
    error := error
    columns_rows := columns.map (fun c =>
      (c.field_path,
        (((per_column.reverse.find? (fun p => p.column.field_path = c.field_path)).map
          ColumnTokenizationPlan.rows_to_update).getD 0))) }

/-- `TokenizeAction.act` after event-context resolution: skip when no PII
column resolves; raise when the `max_columns` safety limit is exceeded (before
`_ensure_metadata`/`_start_run`); otherwise emit the run start, delegate to the
executor, always emit the completion record, and re-raise an executor error.
The first component lists the emissions in order; the second is what `act`
raises to its caller. -/
def tokenize_act (maxColumns : Option Nat) (columns : List TokenizeColumn)
    (execResult : Except String TokenizationOutcome) :
    List RunEmission × Except String Unit :=
  if columns.isEmpty then ([], .ok ())
  else if (match maxColumns with | some m => decide (m < columns.length) | none => false) then
    ([], .error "Column safety limit exceeded")
  else
    let started : List RunEmission := [.ensured_metadata, .run_started columns]
    match execResult with
    | .ok o => (started ++ [.run_completed (complete_run columns (some o) none)], .ok ())
    | .error e =>
        (started ++ [.run_completed (complete_run columns none (some e))], .error e)

/-! ### Run manager coordinator (`src/action/run_manager.py`) -/

def DONE_TAG_URN : String := "urn:li:tag:tokenize/done"
def STATUS_SUCCESS_TAG : String := "urn:li:tag:tokenize/status:SUCCESS"
def STATUS_FAILED_TAG : String := "urn:li:tag:tokenize/status:FAILED"
def FIELD_TOKENIZED_TAG : String := "urn:li:tag:tokenized"
def RUN_TAG_URN : String := "urn:li:tag:tokenize/run"

structure RunStatusModel where
  status : String
  rows_updated : Nat
  rows_skipped : Nat
  message : String
  columns : List String
deriving DecidableEq, Repr

structure TokenizationResultModel where
  columns : List String
  rows_updated : Nat
  rows_skipped : Nat
deriving DecidableEq, Repr

/-- A catalog write issued through the DataHub client. -/
inductive CatalogOp
  | record_status (st : RunStatusModel)
  | ensure_tags (adds : List String) (removes : List String) (field_path : Option String)
deriving DecidableEq, Repr

structure FieldModel where
  field_path : String
  tags : List String
deriving DecidableEq, Repr

/-- `FieldMetadata.column`: `field_path.split(".")[-1]`. -/
def fieldColumn (f : FieldModel) : String :=
  (f.field_path.splitOn ".").getLastD f.field_path

/-- `RunManager._success_message`. -/
def success_message (r : TokenizationResultModel) : String :=
  if r.columns.isEmpty then "No PII columns detected; nothing to tokenise."
  else
    "Tokenised columns " ++ String.intercalate ", " r.columns ++ "; updated " ++
      toString r.rows_updated ++ " rows, skipped " ++ toString r.rows_skipped ++ "."

/-- `RunManager._finalise_success`: dataset-level done/status tags, then the
per-field loop (tokenized tag for tokenized columns, trigger-tag removal), then
the catch-up loop over columns whose first field was not yet processed. -/
def finalise_success_ops (fields : List FieldModel) (columns : List String) : List CatalogOp :=
  CatalogOp.ensure_tags [DONE_TAG_URN, STATUS_SUCCESS_TAG] [RUN_TAG_URN, STATUS_FAILED_TAG] none ::
  (fields.filterMap (fun f =>
    let adds := if fieldColumn f ∈ columns then [FIELD_TOKENIZED_TAG] else []
    let removes := if RUN_TAG_URN ∈ f.tags then [RUN_TAG_URN] else []
    if adds.isEmpty && removes.isEmpty then none
    else some (.ensure_tags adds removes (some f.field_path)))) ++
  (columns.filterMap (fun col =>
    match fields.find? (fun f => fieldColumn f = col) with
    | none => none
    | some f =>
      if f.field_path ∈ (fields.filter (fun g => fieldColumn g ∈ columns)).map
          FieldModel.field_path then none
      else some (.ensure_tags [FIELD_TOKENIZED_TAG] [] (some f.field_path))))

/-- `RunManager._mark_failure`. -/
def mark_failure_ops : List CatalogOp :=
  [.ensure_tags [STATUS_FAILED_TAG] [STATUS_SUCCESS_TAG] none]

/-- `RunManager._execute_tokenization`: empty column list short-circuits with a
zero result before any database access; otherwise dispatch on the platform. -/
def execute_tokenization (platform : String) (pgConfigured dbxConfigured : Bool)
    (dbExec : List String → Except String TokenizationResultModel)
    (columns : List String) : Except String TokenizationResultModel :=
  if columns.isEmpty then .ok ⟨columns, 0, 0⟩
  else if platform = "postgres" then
    if pgConfigured then dbExec columns
    else .error "PG_CONN_STR must be configured for Postgres datasets"
  else if platform = "databricks" then
    if dbxConfigured then dbExec columns
    else .error "DBX_JDBC_URL must be configured for Databricks datasets"
  else .error ("Unsupported platform: " ++ platform)

/-- `RunManager.process`: detect (may raise inside the `try`), sort the
columns, execute, and on any exception record a `FAILED` status with zero rows
and the message — the exception is swallowed, `process` returns normally.  The
components are the recorded run status, the catalog writes in order, and what
`process` raises to its caller. -/
def run_manager_process (fields : List FieldModel) (platform : String)
    (pgConfigured dbxConfigured : Bool)
    (detectResult : Except String (List String))
    (dbExec : List String → Except String TokenizationResultModel) :
    RunStatusModel × List CatalogOp × Except String Unit :=
  match detectResult with
  | .error e =>
      let st : RunStatusModel := ⟨"FAILED", 0, 0, e, []⟩
      (st, .record_status st :: mark_failure_ops, .ok ())
  | .ok detected =>
      let columns := detected.insertionSort (· ≤ ·)
      match execute_tokenization platform pgConfigured dbxConfigured dbExec columns with
      | .error e =>
          let st : RunStatusModel := ⟨"FAILED", 0, 0, e, columns⟩
          (st, .record_status st :: mark_failure_ops, .ok ())
      | .ok r =>
          let st : RunStatusModel :=
            ⟨"SUCCESS", r.rows_updated, r.rows_skipped, success_message r, columns⟩
          (st, .record_status st :: finalise_success_ops fields columns, .ok ())

/-! ### Dataset URN parsing (`src/action/models.py`) -/

inductive PyErr
  | valueError (msg : String)
  | indexError
deriving DecidableEq, Repr

structure DatasetRefModel where
  urn : String
  platform : String
  database : String
  schema_name : String
  table : String
  env : String
deriving DecidableEq, Repr

/-- Python `str.split(sep)` for a one-character separator, on character lists
(splitting keeps empty segments; the empty string yields one empty segment). -/
def splitOnChar (c : Char) : List Char → List (List Char)
  | [] => [[]]
  | x :: xs =>
    let r := splitOnChar c xs
    if x = c then [] :: r
    else
      match r with
      | [] => [[x]]
      | h :: t => (x :: h) :: t

/-- Python `sep.join(parts)` for a one-character separator. -/
def joinWithChar (c : Char) : List (List Char) → List Char
  | [] => []
  | [x] => x
  | x :: xs => x ++ c :: joinWithChar c xs

/-- Split a character list at the first occurrence of `c`. -/
def splitAtFirst (c : Char) : List Char → Option (List Char × List Char)
  | [] => none
  | x :: xs =>
      if x = c then some ([], xs)
      else (splitAtFirst c xs).map (fun p => (x :: p.1, p.2))

/-- `re.match(DATASET_URN_RE, urn)` for
`^urn:li:dataset:\((urn:li:dataPlatform:[^,]+),([^,]+),([^)]+)\)$`.
The character classes cannot cross their delimiting comma, so the match is the
deterministic split at the first two commas of the parenthesised interior,
with the group constraints checked afterwards. -/
def matchDatasetUrn (urn : String) : Option (String × String × String) :=
  let cs := urn.toList
  if cs.take 16 = "urn:li:dataset:(".toList ∧ cs.getLast? = some ')' then
    let inner := (cs.drop 16).dropLast
    match splitAtFirst ',' inner with
    | none => none
    | some (platChars, rest1) =>
      match splitAtFirst ',' rest1 with
      | none => none
      | some (nameChars, envChars) =>
        if platChars.take 20 = "urn:li:dataPlatform:".toList ∧ 20 < platChars.length ∧
            nameChars ≠ [] ∧ envChars ≠ [] ∧ ¬ (')' ∈ envChars) then
          some (String.mk platChars, String.mk nameChars, String.mk envChars)
        else none
  else none

/-- `DatasetRef.from_urn`: validate the URN, split the name on `.`; with fewer
than two parts the `parts[1]` access raises an uncaught `IndexError`. -/
def dataset_ref_from_urn (urn : String) : Except PyErr DatasetRefModel :=
  match matchDatasetUrn urn with
  | none => .error (.valueError ("Unsupported dataset URN: " ++ urn))
  | some (platform_urn, name, env) =>
    let platform := String.mk ((splitOnChar ':' platform_urn.toList).getLastD [])
    match splitOnChar '.' name.toList with
    | [] => .error .indexError
    | [_] => .error .indexError
    | [a, b] => .ok ⟨urn, platform, "default", String.mk a, String.mk b, env⟩
    | a :: b :: rest =>
        .ok ⟨urn, platform, String.mk a, String.mk b,
          String.mk (joinWithChar '.' rest), env⟩

/-! ### Verification helpers and concrete scenarios -/

/-- Column-level evolution relation for the idempotency argument: a column is
unchanged by a run, or every one of its cells now fails the update predicate. -/
def evolvedCol (reMatches : String → Bool) :
    Option PgColumnState → Option PgColumnState → Prop
  | none, none => True
  | some st, some st' =>
      st'.name = st.name ∧ st'.dataType = st.dataType ∧ st'.udtName = st.udtName ∧
        (st'.cells = st.cells ∨ countRowsToTokenize reMatches st'.cells = 0)
  | _, _ => False

/-- Table-level evolution relation (pointwise on column lookups). -/
def evolvedTable (reMatches : String → Bool) (t t' : PgTable) : Prop :=
  ∀ n, evolvedCol reMatches (lookupColumn t n) (lookupColumn t' n)

/-- A model of the regex `^tok_.*_poc$` (prefix, any body, suffix): a token
pattern that accepts every value `generate_token` can produce. -/
def tokenStarPattern (s : String) : Bool :=
  decide (8 ≤ s.toList.length) && s.toList.take 4 = "tok_".toList &&
    s.toList.drop (s.toList.length - 4) = "_poc".toList

/-- A single-column table whose `text` column holds an empty string, a plain
value and a NULL. -/
def emptyCellTable : PgTable :=
  [⟨"email", "text", "text", [some "", some "bob@x.io", none]⟩]

/-- The matching `TokenizeColumn` list for `emptyCellTable`. -/
def emptyCellColumns : List TokenizeColumn :=
  [⟨"email", "email", ["urn:li:tag:pii-email"]⟩]

/-- `emptyCellTable` after one committed run with the canonical token pattern
and the base64 expression: the empty string became `tok__poc`, which the
pattern does not recognize. -/
def tokenizedEmptyCellTable : PgTable :=
  [⟨"email", "text", "text", [some "tok__poc", some "tok_Ym9iQHguaW8=_poc", none]⟩]

/-- `tokenizedEmptyCellTable` after a second committed run: the `tok__poc`
cell is tokenized again. -/
def doubleTokenizedTable : PgTable :=
  [⟨"email", "text", "text", [some "tok_dG9rX19wb2M=_poc", some "tok_Ym9iQHguaW8=_poc", none]⟩]

/-- A one-cell table used for the duplicated-column scenario. -/
def dupColumnTable : PgTable := [⟨"email", "text", "text", [some "x"]⟩]

/-- A column list naming the same column twice. -/
def dupColumns : List TokenizeColumn :=
  [⟨"email", "email", []⟩, ⟨"email", "email", []⟩]

/-- A concrete email rule with decidable patterns. -/
def emailRule : Rule where
  name := "email"
  tag := "urn:li:tag:pii-email"
  name_patterns := [fun n => n = "email"]
  value_pattern := some (fun v => v = "a@b.c")
  min_confidence := 3 / 5
  name_weight := 1 / 2
  value_weight := 1 / 2
  value_match_ratio := 3 / 5

/-- A dataset field carrying the trigger tag. -/
def triggerField : FieldModel := ⟨"f.email", [RUN_TAG_URN]⟩

/-- Three resolved columns, for the safety-limit scenario. -/
def threeColumns : List TokenizeColumn :=
  [⟨"email", "email", []⟩, ⟨"phone", "phone", []⟩, ⟨"notes", "notes", []⟩]

/-! ## Theorems -/

/-- C10: `DatasetRef.from_urn` is not total over URNs its validator accepts —
on a dataset URN whose name has no `.` separator the validator matches, but the
`parts[1]` access raises an uncaught `IndexError` instead of returning a
reference or raising the `ValueError` used for malformed URNs. -/
theorem from_urn_indexError_on_dotless_name :
    matchDatasetUrn "urn:li:dataset:(urn:li:dataPlatform:postgres,mytable,PROD)" =
      some ("urn:li:dataPlatform:postgres", "mytable", "PROD") ∧
    dataset_ref_from_urn "urn:li:dataset:(urn:li:dataPlatform:postgres,mytable,PROD)" =
      Except.error PyErr.indexError := by
  exact ⟨rfl, rfl⟩

/-- C9: when the resolved target columns exceed the configured max-columns
limit, the coordinator raises before any run record is opened: no run
provenance emission happens and the executor result is never consulted. -/
theorem tokenize_act_limit_exceeded (m : Nat) (cols : List TokenizeColumn)
    (execResult : Except String TokenizationOutcome) (h : m < cols.length) :
    tokenize_act (some m) cols execResult = ([], .error "Column safety limit exceeded") := by
  have h0 : cols.isEmpty = false := by
    cases cols with
    | nil => simp at h
    | cons a l => rfl
  simp [tokenize_act, h0, h]

/-- Witness for C9 at `max_columns = 2` with three resolved columns. -/
theorem tokenize_act_limit_exceeded_witness :
    2 < threeColumns.length ∧
      tokenize_act (some 2) threeColumns (.ok ⟨0, []⟩) =
        ([], .error "Column safety limit exceeded") :=
  ⟨by decide, tokenize_act_limit_exceeded 2 threeColumns (.ok ⟨0, []⟩) (by decide)⟩

/-- C5 (amended): on an executor exception `TokenizeAction.act` emits the
completion record (status FAILURE, error captured, zero rows) and then
re-raises the original error; `RunManager.process` likewise records a FAILED
run with zero rows and the error message, but swallows the exception and
returns normally instead of re-raising. -/
theorem executor_failure_recorded_coordinators
    (c : TokenizeColumn) (cs : List TokenizeColumn) (e : String)
    (fields : List FieldModel) (col0 : String) (restCols : List String) :
    (tokenize_act none (c :: cs) (.error e) =
        ([.ensured_metadata, .run_started (c :: cs),
          .run_completed (complete_run (c :: cs) none (some e))], .error e) ∧
      (complete_run (c :: cs) none (some e)).status = "FAILURE" ∧
      (complete_run (c :: cs) none (some e)).rows_affected_total = 0 ∧
      (complete_run (c :: cs) none (some e)).error = some e) ∧
    run_manager_process fields "postgres" true true (.ok (col0 :: restCols))
        (fun _ => .error e) =
      (⟨"FAILED", 0, 0, e, (col0 :: restCols).insertionSort (fun a b => a ≤ b)⟩,
        [.record_status ⟨"FAILED", 0, 0, e, (col0 :: restCols).insertionSort (fun a b => a ≤ b)⟩,
          .ensure_tags [STATUS_FAILED_TAG] [STATUS_SUCCESS_TAG] none],
        .ok ()) := by
  refine ⟨⟨?_, rfl, rfl, rfl⟩, ?_⟩
  · simp [tokenize_act]
  · have hlen := List.length_insertionSort (fun a b : String => a ≤ b) (col0 :: restCols)
    cases hs : (col0 :: restCols).insertionSort (fun a b => a ≤ b) with
    | nil => rw [hs] at hlen; simp at hlen
    | cons x xs =>
        simp only [run_manager_process, hs, execute_tokenization, List.isEmpty_cons,
          mark_failure_ops]
        rfl

/-- C5 counterexample to the claim as stated: with a failing executor,
`RunManager.process` returns normally (third component `.ok ()`), so the
caller does not observe the failure synchronously. -/
theorem run_manager_swallows_executor_error :
    run_manager_process [] "postgres" true true (.ok ["email"]) (fun _ => .error "boom") =
      (⟨"FAILED", 0, 0, "boom", ["email"]⟩,
        [.record_status ⟨"FAILED", 0, 0, "boom", ["email"]⟩,
          .ensure_tags [STATUS_FAILED_TAG] [STATUS_SUCCESS_TAG] none],
        Except.ok ()) := by
  rfl

/-- C6 (amended): a trigger resolving to no PII columns and no explicit list
yields a SUCCESS run with zero rows that returns normally, the run record is
written, and the catalog writes are exactly: the run record, the dataset-level
done/status-tag update, and removal of the trigger tag from fields carrying
it — no field is tagged tokenized and the database is never touched. -/
theorem run_manager_empty_scope_succeeds
    (fields : List FieldModel) (platform : String) (pg dbx : Bool)
    (dbExec : List String → Except String TokenizationResultModel) :
    run_manager_process fields platform pg dbx (.ok []) dbExec =
      (⟨"SUCCESS", 0, 0, "No PII columns detected; nothing to tokenise.", []⟩,
        CatalogOp.record_status
            ⟨"SUCCESS", 0, 0, "No PII columns detected; nothing to tokenise.", []⟩ ::
          CatalogOp.ensure_tags [DONE_TAG_URN, STATUS_SUCCESS_TAG]
            [RUN_TAG_URN, STATUS_FAILED_TAG] none ::
          fields.filterMap (fun f =>
            if RUN_TAG_URN ∈ f.tags then
              some (.ensure_tags [] [RUN_TAG_URN] (some f.field_path))
            else none),
        .ok ()) := by
  have hops : finalise_success_ops fields [] =
      CatalogOp.ensure_tags [DONE_TAG_URN, STATUS_SUCCESS_TAG]
          [RUN_TAG_URN, STATUS_FAILED_TAG] none ::
        fields.filterMap (fun f =>
          if RUN_TAG_URN ∈ f.tags then
            some (.ensure_tags [] [RUN_TAG_URN] (some f.field_path))
          else none) := by
    unfold finalise_success_ops
    simp only [List.filterMap_nil, List.append_nil]
    refine congrArg (_ :: ·) ?_
    apply List.filterMap_congr
    intro f _
    by_cases h : RUN_TAG_URN ∈ f.tags <;> simp [h, List.not_mem_nil]
  simp [run_manager_process, execute_tokenization, success_message, hops]

/-- C6 counterexample to the claim as stated: the finalization writes the
dataset-level done/status tags, a catalog mutation beyond clearing the trigger
signal (and beyond the run record the claim sets aside). -/
theorem run_manager_empty_scope_writes_status_tags :
    (run_manager_process [triggerField] "postgres" true true (.ok [])
        (fun _ => .error "unused")).2.1 =
      [.record_status ⟨"SUCCESS", 0, 0, "No PII columns detected; nothing to tokenise.", []⟩,
        .ensure_tags [DONE_TAG_URN, STATUS_SUCCESS_TAG] [RUN_TAG_URN, STATUS_FAILED_TAG] none,
        .ensure_tags [] [RUN_TAG_URN] (some "f.email")] := by
  rfl

/-- C8 (amended): during `PIIClassifier.run`, a column whose sampling raises
aborts the whole run (the exception propagates, later columns are not
processed), while a column with an empty sample list is skipped and the run
continues with the remaining columns. -/
theorem classifier_error_aborts_and_empty_skips
    (r : Rule) (rs : List Rule) (minV : Nat) (name : String) (e : String)
    (rest : List (String × Except String (List (Option String)))) :
    classifierRun (r :: rs) minV ((name, .error e) :: rest) = .error e ∧
    classifierRun (r :: rs) minV ((name, .ok []) :: rest) =
      classifierRun (r :: rs) minV rest := by
  exact ⟨rfl, rfl⟩

/-- C8 counterexample to the claim as stated: a sampling exception on one
column aborts the batch — the run result is the propagated error, not a
continuation over the remaining columns. -/
theorem classifier_run_aborts_on_sampler_error :
    classifierRun [emailRule] 1 [("a", .error "db fail"), ("email", .ok [some "a@b.c"])] =
      .error "db fail" := by
  rfl

/-- C4 (amended): `Rule.evaluate` computes the spec algorithm with step (d)
read as the code does — only the upper clamp `min(score, 1.0)` is applied (no
clamp below at 0) — and `is_match` holds exactly when the confidence reaches
the rule threshold. -/
theorem rule_evaluate_eq_spec_upper (r : Rule) (cn : String)
    (samples : List (Option String)) :
    Rule.evaluate r cn samples = specRuleEvaluateUpper r cn samples ∧
    ((Rule.evaluate r cn samples).is_match = true ↔
      r.min_confidence ≤ (Rule.evaluate r cn samples).confidence) := by
  constructor
  · unfold Rule.evaluate specRuleEvaluateUpper specNameMatch specValueRatio specScore
    cases hvp : r.value_pattern with
    | none =>
        by_cases hn : r.name_patterns.any (fun p => p cn.toLower) <;>
          by_cases ht : (((samples.filterMap id).map String.trim).filter
              (fun v => v ≠ "")).length = 0 <;>
          simp [hvp, hn, ht]
    | some p =>
        by_cases hn : r.name_patterns.any (fun p => p cn.toLower) <;>
          simp [hvp, hn]
  · have hr : (Rule.evaluate r cn samples).rule = r := rfl
    unfold RuleEvaluation.is_match
    rw [hr]
    exact decide_eq_true_iff

/-- C4 counterexample to the claim as stated: for a loader-accepted rule with
a negative name weight (weights sum to 1/2 > 0), the code's confidence is
negative, while the claimed clamp to `[0,1]` would give 0. -/
theorem rule_evaluate_negative_confidence :
    (Rule.evaluate counterRule "x" []).confidence = -(1 / 2) ∧
    (specRuleEvaluate counterRule "x" []).confidence = 0 ∧
    Rule.evaluate counterRule "x" [] ≠ specRuleEvaluate counterRule "x" [] := by
  have h1 : (Rule.evaluate counterRule "x" []).confidence = -(1 / 2) := by
    norm_num [Rule.evaluate, counterRule]
  have h2 : (specRuleEvaluate counterRule "x" []).confidence = 0 := by
    norm_num [specRuleEvaluate, specNameMatch, specValueRatio, specScore, clamp01, counterRule]
  refine ⟨h1, h2, fun h => ?_⟩
  have := congrArg RuleEvaluation.confidence h
  rw [h1, h2] at this
  norm_num at this

/-! ### Codec lemmas -/

theorem b64CharIndex_b64Char : ∀ n, n < 64 → b64CharIndex (b64Char n) = some n := by decide

theorem b64Char_ne_eqsign : ∀ n, n < 64 → b64Char n ≠ '=' := by decide

theorem tokenBodyChar_b64Char (n : Nat) : tokenBodyChar (b64Char n) = true := by
  by_cases h : n < 64
  · exact (by decide : ∀ m, m < 64 → tokenBodyChar (b64Char m) = true) n h
  · unfold b64Char
    rw [List.getD_eq_default]
    · decide
    · have : b64Alphabet.length = 64 := by decide
      omega

theorem utf8EncodeChar_ne_nil (n : Nat) : utf8EncodeChar n ≠ [] := by
  unfold utf8EncodeChar
  split
  · simp
  · split
    · simp
    · split <;> simp

theorem utf8Encode_ne_nil (s : List Char) (h : s ≠ []) : utf8Encode s ≠ [] := by
  cases s with
  | nil => exact absurd rfl h
  | cons c cs =>
      simp only [utf8Encode]
      intro hh
      exact absurd (List.append_eq_nil.mp hh).1 (utf8EncodeChar_ne_nil _)

theorem b64Encode_ne_nil (bs : List Nat) (h : bs ≠ []) : b64Encode bs ≠ [] := by
  match bs with
  | [] => exact absurd rfl h
  | [a] => simp [b64Encode]
  | [a, b] => simp [b64Encode]
  | a :: b :: c :: rest => simp [b64Encode]

theorem b64Encode_mem_body (bs : List Nat) : ∀ c ∈ b64Encode bs, tokenBodyChar c = true := by
  induction bs using b64Encode.induct with
  | case1 => intro c hc; simp [b64Encode] at hc
  | case2 a =>
      intro c hc
      simp [b64Encode] at hc
      rcases hc with h | h | h <;> subst h <;>
        first | exact tokenBodyChar_b64Char _ | decide
  | case3 a b =>
      intro c hc
      simp [b64Encode] at hc
      rcases hc with h | h | h | h <;> subst h <;>
        first | exact tokenBodyChar_b64Char _ | decide
  | case4 a b c rest ih =>
      intro d hd
      simp [b64Encode] at hd
      rcases hd with h | h | h | h | h
      · subst h; exact tokenBodyChar_b64Char _
      · subst h; exact tokenBodyChar_b64Char _
      · subst h; exact tokenBodyChar_b64Char _
      · subst h; exact tokenBodyChar_b64Char _
      · exact ih d h

theorem tokenWrap_parts (body : List Char) :
    ("tok_".toList ++ body ++ "_poc".toList).length = body.length + 8 ∧
    ("tok_".toList ++ body ++ "_poc".toList).take 4 = "tok_".toList ∧
    ("tok_".toList ++ body ++ "_poc".toList).drop
      (("tok_".toList ++ body ++ "_poc".toList).length - 4) = "_poc".toList ∧
    (("tok_".toList ++ body ++ "_poc".toList).drop 4).take
      (("tok_".toList ++ body ++ "_poc".toList).length - 8) = body := by
  have hlen : ("tok_".toList ++ body ++ "_poc".toList).length = body.length + 8 := by
    simp [List.length_append]
  refine ⟨hlen, ?_, ?_, ?_⟩
  · rw [List.append_assoc]
    exact List.take_left "tok_".toList (body ++ "_poc".toList)
  · have h4 : ("tok_".toList ++ body ++ "_poc".toList).length - 4 =
        ("tok_".toList ++ body).length := by
      rw [hlen]; simp [List.length_append]
    rw [h4]
    exact List.drop_left ("tok_".toList ++ body) "_poc".toList
  · rw [List.append_assoc]
    have hd : ("tok_".toList ++ (body ++ "_poc".toList)).drop 4 = body ++ "_poc".toList :=
      List.drop_left "tok_".toList (body ++ "_poc".toList)
    rw [hd]
    have h8 : ("tok_".toList ++ (body ++ "_poc".toList)).length - 8 = body.length := by
      simp [List.length_append]
    rw [h8]
    exact List.take_left body "_poc".toList

theorem tokenListMatch_wrap (body : List Char) (hne : body ≠ [])
    (hall : ∀ c ∈ body, tokenBodyChar c = true) :
    tokenListMatch ("tok_".toList ++ body ++ "_poc".toList) = true := by
  obtain ⟨hlen, htake, hdrop, hmid⟩ := tokenWrap_parts body
  have hpos : 0 < body.length := List.length_pos.mpr hne
  unfold tokenListMatch
  simp only [Bool.and_eq_true, decide_eq_true_eq]
  refine ⟨⟨⟨?_, ?_⟩, ?_⟩, ?_⟩
  · rw [hlen]; omega
  · exact htake
  · exact hdrop
  · rw [hmid, List.all_eq_true]
    intro c hc
    exact hall c hc

theorem tokenRegexMatch_wrap (body : List Char) (hne : body ≠ [])
    (hall : ∀ c ∈ body, tokenBodyChar c = true) :
    tokenRegexMatch (String.mk ("tok_".toList ++ body ++ "_poc".toList)) = true := by
  have hlast : ("tok_".toList ++ body ++ "_poc".toList).getLast? = some 'c' := by
    rw [List.getLast?_append]
    rfl
  have hcs : (String.mk ("tok_".toList ++ body ++ "_poc".toList)).toList =
      "tok_".toList ++ body ++ "_poc".toList := rfl
  unfold tokenRegexMatch
  rw [hcs, hlast, if_neg (by decide : ¬(some 'c' = some '\n'))]
  exact tokenListMatch_wrap body hne hall

/-- C2 (amended): for every nonempty string `x`, `is_token(generate_token(x))`
is true — the base64 body is nonempty and drawn from the token character
class, so the token matches `^tok_[A-Za-z0-9+/=]+_poc$`. -/
theorem is_token_generate_token (x : String) (h : x ≠ "") :
    is_token (some (generate_token x)) = true := by
  have hx : x.toList ≠ [] := by
    intro hnil
    apply h
    cases x with
    | mk d =>
        have hd : d = [] := hnil
        rw [hd]
  have hb : b64Encode (utf8Encode x.toList) ≠ [] :=
    b64Encode_ne_nil _ (utf8Encode_ne_nil _ hx)
  show tokenRegexMatch (generate_token x) = true
  unfold generate_token
  exact tokenRegexMatch_wrap _ hb (b64Encode_mem_body _)

/-- Witness for C2 at the one-character string `"a"`. -/
theorem is_token_generate_token_witness :
    "a" ≠ "" ∧ is_token (some (generate_token "a")) = true :=
  ⟨by decide, is_token_generate_token "a" (by decide)⟩

/-- C2 counterexample to the claim as stated: `generate_token("")` is
`tok__poc`, whose empty body fails the `+` of the token regex, so
`is_token(generate_token(""))` is false. -/
theorem is_token_generate_token_empty :
    generate_token "" = "tok__poc" ∧ is_token (some (generate_token "")) = false :=
  ⟨rfl, rfl⟩

theorem char_toNat_lt (c : Char) : c.toNat < 1114112 := by
  rcases c.valid with h | h
  · exact Nat.lt_trans h (by norm_num)
  · exact h.2

theorem utf8Loop_encodeChar (n : Nat) (hn : n < 1114112) (rest : List Nat) :
    utf8DecodeLoop none (utf8EncodeChar n ++ rest) =
      (utf8DecodeLoop none rest).map (fun ns => n :: ns) := by
  unfold utf8EncodeChar
  by_cases h1 : n < 128
  · rw [if_pos h1]
    show utf8DecodeLoop none (n :: rest) = _
    rw [utf8DecodeLoop, if_pos h1]
  · rw [if_neg h1]
    by_cases h2 : n < 2048
    · rw [if_pos h2]
      show utf8DecodeLoop none ((192 + n / 64) :: (128 + n % 64) :: rest) = _
      rw [utf8DecodeLoop, if_neg (by omega : ¬(192 + n / 64 < 128)),
        if_neg (by omega : ¬(192 + n / 64 < 192)),
        if_pos (by omega : 192 + n / 64 < 224)]
      rw [utf8DecodeLoop, if_pos (by omega : 128 ≤ 128 + n % 64 ∧ 128 + n % 64 < 192),
        if_pos rfl]
      rw [show (192 + n / 64 - 192) * 64 + (128 + n % 64 - 128) = n from by omega]
    · rw [if_neg h2]
      by_cases h3 : n < 65536
      · rw [if_pos h3]
        show utf8DecodeLoop none
          ((224 + n / 4096) :: (128 + n / 64 % 64) :: (128 + n % 64) :: rest) = _
        rw [utf8DecodeLoop, if_neg (by omega : ¬(224 + n / 4096 < 128)),
          if_neg (by omega : ¬(224 + n / 4096 < 192)),
          if_neg (by omega : ¬(224 + n / 4096 < 224)),
          if_pos (by omega : 224 + n / 4096 < 240)]
        rw [utf8DecodeLoop,
          if_pos (by omega : 128 ≤ 128 + n / 64 % 64 ∧ 128 + n / 64 % 64 < 192),
          if_neg (by decide : ¬(2 = 1))]
        rw [utf8DecodeLoop, if_pos (by omega : 128 ≤ 128 + n % 64 ∧ 128 + n % 64 < 192),
          if_pos rfl]
        rw [show ((224 + n / 4096 - 224) * 64 + (128 + n / 64 % 64 - 128)) * 64 +
          (128 + n % 64 - 128) = n from by omega]
      · rw [if_neg h3]
        show utf8DecodeLoop none ((240 + n / 262144) :: (128 + n / 4096 % 64) ::
          (128 + n / 64 % 64) :: (128 + n % 64) :: rest) = _
        rw [utf8DecodeLoop, if_neg (by omega : ¬(240 + n / 262144 < 128)),
          if_neg (by omega : ¬(240 + n / 262144 < 192)),
          if_neg (by omega : ¬(240 + n / 262144 < 224)),
          if_neg (by omega : ¬(240 + n / 262144 < 240)),
          if_pos (by omega : 240 + n / 262144 < 248)]
        rw [utf8DecodeLoop,
          if_pos (by omega : 128 ≤ 128 + n / 4096 % 64 ∧ 128 + n / 4096 % 64 < 192),
          if_neg (by decide : ¬(3 = 1))]
        rw [utf8DecodeLoop,
          if_pos (by omega : 128 ≤ 128 + n / 64 % 64 ∧ 128 + n / 64 % 64 < 192),
          if_neg (by decide : ¬(3 - 1 = 1))]
        rw [utf8DecodeLoop, if_pos (by omega : 128 ≤ 128 + n % 64 ∧ 128 + n % 64 < 192),
          if_pos rfl]
        rw [show (((240 + n / 262144 - 240) * 64 + (128 + n / 4096 % 64 - 128)) * 64 +
          (128 + n / 64 % 64 - 128)) * 64 + (128 + n % 64 - 128) = n from by omega]

theorem utf8Loop_roundtrip (s : List Char) :
    utf8DecodeLoop none (utf8Encode s) = some (s.map Char.toNat) := by
  induction s with
  | nil => rfl
  | cons c cs ih =>
      show utf8DecodeLoop none (utf8EncodeChar c.toNat ++ utf8Encode cs) = _
      rw [utf8Loop_encodeChar c.toNat (char_toNat_lt c), ih]
      rfl

theorem utf8_roundtrip (s : List Char) : utf8Decode (utf8Encode s) = some s := by
  unfold utf8Decode
  rw [utf8Loop_roundtrip]
  show some ((s.map Char.toNat).map Char.ofNat) = some s
  simp only [List.map_map]
  have : Char.ofNat ∘ Char.toNat = id := by
    funext c
    exact Char.ofNat_toNat c
  rw [this, List.map_id]

theorem utf8Encode_lt (s : List Char) : ∀ b ∈ utf8Encode s, b < 256 := by
  induction s with
  | nil => intro b hb; simp [utf8Encode] at hb
  | cons c cs ih =>
      intro b hb
      simp only [utf8Encode, List.mem_append] at hb
      rcases hb with hb | hb
      · have hn := char_toNat_lt c
        unfold utf8EncodeChar at hb
        by_cases h1 : c.toNat < 128
        · rw [if_pos h1] at hb
          simp at hb
          omega
        · rw [if_neg h1] at hb
          by_cases h2 : c.toNat < 2048
          · rw [if_pos h2] at hb
            simp at hb
            rcases hb with h | h <;> omega
          · rw [if_neg h2] at hb
            by_cases h3 : c.toNat < 65536
            · rw [if_pos h3] at hb
              simp at hb
              rcases hb with h | h | h <;> omega
            · rw [if_neg h3] at hb
              simp at hb
              rcases hb with h | h | h | h <;> omega
      · exact ih b hb

theorem b64_roundtrip (bs : List Nat) (h : ∀ b ∈ bs, b < 256) :
    b64Decode (b64Encode bs) = some bs := by
  induction bs using b64Encode.induct with
  | case1 => rfl
  | case2 a =>
      have ha : a < 256 := h a (by simp)
      have h1 : a / 4 < 64 := by omega
      have h2 : a % 4 * 16 < 64 := by omega
      unfold b64Encode b64Decode
      rw [List.filter_cons_of_pos (by exact decide_eq_true (b64Char_ne_eqsign _ h1)),
        List.filter_cons_of_pos (by exact decide_eq_true (b64Char_ne_eqsign _ h2)),
        List.filter_cons_of_neg (by decide), List.filter_cons_of_neg (by decide),
        List.filter_nil]
      simp only [b64Indices, b64CharIndex_b64Char _ h1, b64CharIndex_b64Char _ h2,
        sextetsToBytes]
      simp only [Option.some.injEq, List.cons.injEq, and_true]
      omega
  | case3 a b =>
      have ha : a < 256 := h a (by simp)
      have hb : b < 256 := h b (by simp)
      have h1 : a / 4 < 64 := by omega
      have h2 : a % 4 * 16 + b / 16 < 64 := by omega
      have h3 : b % 16 * 4 < 64 := by omega
      unfold b64Encode b64Decode
      rw [List.filter_cons_of_pos (by exact decide_eq_true (b64Char_ne_eqsign _ h1)),
        List.filter_cons_of_pos (by exact decide_eq_true (b64Char_ne_eqsign _ h2)),
        List.filter_cons_of_pos (by exact decide_eq_true (b64Char_ne_eqsign _ h3)),
        List.filter_cons_of_neg (by decide), List.filter_nil]
      simp only [b64Indices, b64CharIndex_b64Char _ h1, b64CharIndex_b64Char _ h2,
        b64CharIndex_b64Char _ h3, sextetsToBytes]
      simp only [Option.some.injEq, List.cons.injEq, and_true]
      constructor <;> omega
  | case4 a b c rest ih =>
      have ha : a < 256 := h a (by simp)
      have hb : b < 256 := h b (by simp)
      have hc : c < 256 := h c (by simp)
      have hrest : ∀ x ∈ rest, x < 256 := fun x hx => h x (by simp [hx])
      have ih' := ih hrest
      have h1 : a / 4 < 64 := by omega
      have h2 : a % 4 * 16 + b / 16 < 64 := by omega
      have h3 : b % 16 * 4 + c / 64 < 64 := by omega
      have h4 : c % 64 < 64 := by omega
      unfold b64Decode at ih' ⊢
      unfold b64Encode
      rw [List.filter_cons_of_pos (by exact decide_eq_true (b64Char_ne_eqsign _ h1)),
        List.filter_cons_of_pos (by exact decide_eq_true (b64Char_ne_eqsign _ h2)),
        List.filter_cons_of_pos (by exact decide_eq_true (b64Char_ne_eqsign _ h3)),
        List.filter_cons_of_pos (by exact decide_eq_true (b64Char_ne_eqsign _ h4))]
      cases hind : b64Indices ((b64Encode rest).filter (fun c => decide (c ≠ '='))) with
      | none => rw [hind] at ih'; simp at ih'
      | some ns =>
          rw [hind] at ih'
          have ih2 : sextetsToBytes ns = some rest := ih'
          simp only [b64Indices, b64CharIndex_b64Char _ h1, b64CharIndex_b64Char _ h2,
            b64CharIndex_b64Char _ h3, b64CharIndex_b64Char _ h4, hind, sextetsToBytes]
          cases hst : sextetsToBytes ns with
          | none => rw [hst] at ih2; simp at ih2
          | some tl =>
              rw [hst] at ih2
              simp only [Option.some.injEq] at ih2
              simp only [Option.map_some', Option.some.injEq, ih2]
              rw [List.cons.injEq, List.cons.injEq, List.cons.injEq]
              refine ⟨by omega, by omega, by omega, rfl⟩

theorem string_mk_toList (s : String) : String.mk s.toList = s := by
  cases s
  rfl

/-- C3: decoding `generate_token(x)` — stripping the `tok_` prefix and `_poc`
suffix, base64-decoding the body and UTF-8-decoding the bytes — recovers `x`
for every string `x`: the reversible encoding round-trips. -/
theorem decode_token_generate_token (x : String) :
    decode_token (generate_token x) = some x := by
  obtain ⟨hlen, htake, hdrop, hmid⟩ := tokenWrap_parts (b64Encode (utf8Encode x.toList))
  have hcs : (generate_token x).toList =
      "tok_".toList ++ b64Encode (utf8Encode x.toList) ++ "_poc".toList := rfl
  unfold decode_token
  rw [hcs]
  unfold decodeTokenBody
  rw [if_pos ⟨by rw [hlen]; omega, htake, hdrop⟩]
  rw [hmid]
  rw [b64_roundtrip _ (utf8Encode_lt _)]
  show (utf8Decode (utf8Encode x.toList)).map String.mk = some x
  rw [utf8_roundtrip]
  show some (String.mk x.toList) = some x
  rw [string_mk_toList]

/-! ### Executor lemmas -/

theorem lookupColumn_updateTable (m : String → Bool) (e : String → String)
    (t : PgTable) (name n : String) :
    lookupColumn (updateTable m e t name) n =
      (lookupColumn t n).map (fun st =>
        if st.name = name then { st with cells := updateCells m e st.cells } else st) := by
  unfold lookupColumn updateTable
  rw [List.find?_map]
  have hp : ((fun st : PgColumnState => decide (st.name = n)) ∘ fun st =>
      if st.name = name then { st with cells := updateCells m e st.cells } else st) =
      (fun st : PgColumnState => decide (st.name = n)) := by
    funext st
    by_cases h : st.name = name <;> simp [h, Function.comp]
  rw [hp]

theorem lookupColumn_name (t : PgTable) (n : String) (st : PgColumnState)
    (h : lookupColumn t n = some st) : st.name = n := by
  have := List.find?_some h
  simpa using this

theorem lookupColumn_updateTable_ne (m : String → Bool) (e : String → String)
    (t : PgTable) (name n : String) (hne : n ≠ name) :
    lookupColumn (updateTable m e t name) n = lookupColumn t n := by
  rw [lookupColumn_updateTable]
  cases hl : lookupColumn t n with
  | none => rfl
  | some st =>
      have hname : st.name = n := lookupColumn_name t n st hl
      rw [Option.map_some']
      rw [if_neg (by rw [hname]; exact hne)]

theorem cellNeedsUpdate_updateCells (m : String → Bool) (e : String → String)
    (hTok : ∀ v, m (e v) = true) (cells : List (Option String)) :
    ∀ cell ∈ updateCells m e cells, cellNeedsUpdate m cell = false := by
  intro cell hc
  unfold updateCells at hc
  rw [List.mem_map] at hc
  obtain ⟨c0, _, rfl⟩ := hc
  cases c0 with
  | none => rfl
  | some v =>
      by_cases hv : m v
      · simp [hv, cellNeedsUpdate]
      · simp [hv, cellNeedsUpdate, hTok v]

theorem countRows_eq_zero_iff (m : String → Bool) (cells : List (Option String)) :
    countRowsToTokenize m cells = 0 ↔ ∀ cell ∈ cells, cellNeedsUpdate m cell = false := by
  unfold countRowsToTokenize
  rw [List.length_eq_zero, List.filter_eq_nil_iff]
  simp

theorem countRows_updateCells (m : String → Bool) (e : String → String)
    (hTok : ∀ v, m (e v) = true) (cells : List (Option String)) :
    countRowsToTokenize m (updateCells m e cells) = 0 :=
  (countRows_eq_zero_iff m _).mpr (cellNeedsUpdate_updateCells m e hTok cells)

theorem evolvedTable_refl (m : String → Bool) (t : PgTable) : evolvedTable m t t := by
  intro n
  cases h : lookupColumn t n with
  | none => trivial
  | some st => exact ⟨rfl, rfl, rfl, Or.inl rfl⟩

theorem evolvedTable_trans (m : String → Bool) (t t' t'' : PgTable)
    (h1 : evolvedTable m t t') (h2 : evolvedTable m t' t'') : evolvedTable m t t'' := by
  intro n
  have e1 := h1 n
  have e2 := h2 n
  cases ha : lookupColumn t n <;> cases hb : lookupColumn t' n <;>
    cases hc : lookupColumn t'' n <;> rw [ha, hb] at e1 <;> rw [hb, hc] at e2 <;>
    try exact e1
  all_goals try exact e2
  all_goals try trivial
  case some.some.some st st' st'' =>
    obtain ⟨hn1, hd1, hu1, hcell1⟩ := e1
    obtain ⟨hn2, hd2, hu2, hcell2⟩ := e2
    refine ⟨hn2.trans hn1, hd2.trans hd1, hu2.trans hu1, ?_⟩
    rcases hcell2 with hcc | hz
    · rcases hcell1 with hcc' | hz'
      · exact Or.inl (hcc.trans hcc')
      · exact Or.inr (by rw [hcc]; exact hz')
    · exact Or.inr hz

theorem evolvedTable_updateTable (m : String → Bool) (e : String → String)
    (hTok : ∀ v, m (e v) = true) (t : PgTable) (name : String) :
    evolvedTable m t (updateTable m e t name) := by
  intro n
  rw [lookupColumn_updateTable]
  cases h : lookupColumn t n with
  | none => trivial
  | some st =>
      rw [Option.map_some']
      by_cases hn : st.name = name
      · rw [if_pos hn]
        exact ⟨rfl, rfl, rfl, Or.inr (countRows_updateCells m e hTok st.cells)⟩
      · rw [if_neg hn]
        exact ⟨rfl, rfl, rfl, Or.inl rfl⟩

theorem evolvedTable_lookup (m : String → Bool) (t1 t2 : PgTable) (n : String)
    (h : evolvedTable m t1 t2) (st : PgColumnState) (hlk : lookupColumn t1 n = some st) :
    ∃ st', lookupColumn t2 n = some st' ∧ st'.dataType = st.dataType ∧
      st'.udtName = st.udtName ∧
      (st'.cells = st.cells ∨ countRowsToTokenize m st'.cells = 0) := by
  have hn := h n
  rw [hlk] at hn
  cases hlk2 : lookupColumn t2 n with
  | none => rw [hlk2] at hn; exact absurd hn (by simp [evolvedCol])
  | some st' =>
      rw [hlk2] at hn
      obtain ⟨_, hd, hu, hc⟩ := hn
      exact ⟨st', rfl, hd, hu, hc⟩

theorem evolvedTable_clean_lookup (m : String → Bool) (t1 t2 : PgTable) (n : String)
    (h : evolvedTable m t1 t2) (st : PgColumnState) (hlk : lookupColumn t1 n = some st)
    (hz : countRowsToTokenize m st.cells = 0) :
    ∃ st', lookupColumn t2 n = some st' ∧ countRowsToTokenize m st'.cells = 0 := by
  obtain ⟨st', hlk2, _, _, hc⟩ := evolvedTable_lookup m t1 t2 n h st hlk
  refine ⟨st', hlk2, ?_⟩
  rcases hc with hc | hc
  · rw [hc]; exact hz
  · exact hc

theorem isTextualState_eq_of_types (st st' : PgColumnState)
    (hd : st'.dataType = st.dataType) (hu : st'.udtName = st.udtName) :
    isTextualState st' = isTextualState st := by
  unfold isTextualState
  rw [hd, hu]

theorem executeUpdate_wet (m : String → Bool) (e : String → String) (t : PgTable)
    (n : String) (st : PgColumnState) (hlk : lookupColumn t n = some st) :
    executeUpdate m e false t n = (countRowsToTokenize m st.cells, updateTable m e t n) := by
  unfold executeUpdate
  rw [if_neg (by simp), hlk]
  rfl

theorem tokenizeLoop_wet (m : String → Bool) (e : String → String)
    (hTok : ∀ v, m (e v) = true) (cols : List TokenizeColumn) :
    ∀ (t : PgTable) (total : Nat) (acc : List ColumnTokenizationPlan)
      (res : Nat × List ColumnTokenizationPlan × PgTable),
    tokenizeLoop m e false cols t total acc = .ok res →
    evolvedTable m t res.2.2 ∧
      ∀ c ∈ cols, ∃ st', lookupColumn res.2.2 c.column = some st' ∧
        (isTextualState st' = true → countRowsToTokenize m st'.cells = 0) := by
  induction cols with
  | nil =>
      intro t total acc res hres
      unfold tokenizeLoop at hres
      simp only [Except.ok.injEq] at hres
      rw [← hres]
      exact ⟨evolvedTable_refl m t, by simp⟩
  | cons c rest ih =>
      intro t total acc res hres
      unfold tokenizeLoop at hres
      split at hres
      case h_1 => exact absurd hres (by simp)
      case h_2 st hlk =>
          by_cases htex : isTextualState st
          · rw [if_pos htex] at hres
            by_cases hn : 0 < countRowsToTokenize m st.cells
            · rw [if_pos hn, if_neg (by simp)] at hres
              rw [executeUpdate_wet m e t c.column st hlk] at hres
              obtain ⟨hev, hrest⟩ := ih (updateTable m e t c.column) _ _ res hres
              have hevt : evolvedTable m t res.2.2 :=
                evolvedTable_trans m t _ _ (evolvedTable_updateTable m e hTok t c.column) hev
              refine ⟨hevt, ?_⟩
              intro c' hc'
              rcases List.mem_cons.mp hc' with hc' | hc'
              · subst hc'
                have hname : st.name = c'.column := lookupColumn_name t c'.column st hlk
                have hlkU : lookupColumn (updateTable m e t c'.column) c'.column =
                    some { st with cells := updateCells m e st.cells } := by
                  rw [lookupColumn_updateTable, hlk, Option.map_some', if_pos hname]
                obtain ⟨st', hlk2, hz⟩ := evolvedTable_clean_lookup m _ _ c'.column hev
                  { st with cells := updateCells m e st.cells } hlkU
                  (countRows_updateCells m e hTok st.cells)
                exact ⟨st', hlk2, fun _ => hz⟩
              · exact hrest c' hc'
            · rw [if_neg hn] at hres
              obtain ⟨hev, hrest⟩ := ih t _ _ res hres
              refine ⟨hev, ?_⟩
              intro c' hc'
              rcases List.mem_cons.mp hc' with hc' | hc'
              · subst hc'
                have hz : countRowsToTokenize m st.cells = 0 := by omega
                obtain ⟨st', hlk2, hz'⟩ := evolvedTable_clean_lookup m _ _ c'.column hev st hlk hz
                exact ⟨st', hlk2, fun _ => hz'⟩
              · exact hrest c' hc'
          · rw [if_neg htex] at hres
            obtain ⟨hev, hrest⟩ := ih t _ _ res hres
            refine ⟨hev, ?_⟩
            intro c' hc'
            rcases List.mem_cons.mp hc' with hc' | hc'
            · subst hc'
              obtain ⟨st', hlk2, hd, hu, _⟩ := evolvedTable_lookup m _ _ c'.column hev st hlk
              refine ⟨st', hlk2, fun htex' => ?_⟩
              rw [isTextualState_eq_of_types st st' hd hu] at htex'
              exact absurd htex' (by simpa using htex)
            · exact hrest c' hc'

theorem tokenizeLoop_clean (m : String → Bool) (e : String → String) (d : Bool)
    (cols : List TokenizeColumn) :
    ∀ (t : PgTable) (total : Nat) (acc : List ColumnTokenizationPlan),
    (∀ c ∈ cols, ∃ st, lookupColumn t c.column = some st ∧
        (isTextualState st = true → countRowsToTokenize m st.cells = 0)) →
    ∃ plans, tokenizeLoop m e d cols t total acc = .ok (total, acc.reverse ++ plans, t) ∧
      ∀ p ∈ plans, p.rows_to_update = 0 := by
  induction cols with
  | nil =>
      intro t total acc _
      refine ⟨[], ?_, by simp⟩
      unfold tokenizeLoop
      simp
  | cons c rest ih =>
      intro t total acc h
      obtain ⟨st, hlk, hclean⟩ := h c (by simp)
      have hrest : ∀ c' ∈ rest, ∃ st, lookupColumn t c'.column = some st ∧
          (isTextualState st = true → countRowsToTokenize m st.cells = 0) :=
        fun c' hc' => h c' (by simp [hc'])
      unfold tokenizeLoop
      rw [hlk]
      show ∃ plans, (if isTextualState st then _ else _) = _ ∧ _
      by_cases htex : isTextualState st
      · rw [if_pos htex]
        have hz : countRowsToTokenize m st.cells = 0 := hclean htex
        rw [hz]
        rw [if_neg (by omega)]
        obtain ⟨plans, hloop, hzs⟩ := ih t (total + 0)
          (⟨c, 0, some st.dataType⟩ :: acc) hrest
        refine ⟨⟨c, 0, some st.dataType⟩ :: plans, ?_, ?_⟩
        · rw [hloop]
          simp
        · intro p hp
          rcases List.mem_cons.mp hp with hp | hp
          · rw [hp]
          · exact hzs p hp
      · rw [if_neg htex]
        obtain ⟨plans, hloop, hzs⟩ := ih t total (⟨c, 0, some st.dataType⟩ :: acc) hrest
        refine ⟨⟨c, 0, some st.dataType⟩ :: plans, ?_, ?_⟩
        · rw [hloop]
          simp
        · intro p hp
          rcases List.mem_cons.mp hp with hp | hp
          · rw [hp]
          · exact hzs p hp

/-- C1 (amended): provided every value the token expression writes matches the
token pattern, a committed `tokenize` run is idempotent — a second identical
invocation on the resulting table succeeds with `total_rows = 0`, reports
`rows_to_update = 0` for every column in its plans, and leaves the table
unchanged. -/
theorem tokenize_idempotent (m : String → Bool) (e : String → String)
    (tenants : List String) (tid : String) (cols : List TokenizeColumn)
    (t : PgTable) (out1 : TokenizationOutcome) (t1 : PgTable)
    (hTok : ∀ v, m (e v) = true)
    (h1 : tokenize m e tenants tid cols false t = .ok (out1, t1)) :
    ∃ plans, tokenize m e tenants tid cols false t1 = .ok (⟨0, plans⟩, t1) ∧
      ∀ p ∈ plans, p.rows_to_update = 0 := by
  unfold tokenize at h1 ⊢
  by_cases hten : tid ∈ tenants
  · rw [if_pos hten] at h1 ⊢
    cases hloop : tokenizeLoop m e false cols t 0 [] with
    | error e' => rw [hloop] at h1; exact absurd h1 (by simp)
    | ok res =>
        obtain ⟨total, plans1, tfin⟩ := res
        rw [hloop] at h1
        simp only [Except.ok.injEq, Prod.mk.injEq] at h1
        obtain ⟨-, ht1⟩ := h1
        have hwet := tokenizeLoop_wet m e hTok cols t 0 [] (total, plans1, tfin) hloop
        have ht1' : tfin = t1 := by
          rw [if_neg (by simp)] at ht1
          exact ht1
        subst ht1'
        have hcols : ∀ c ∈ cols, ∃ st, lookupColumn tfin c.column = some st ∧
            (isTextualState st = true → countRowsToTokenize m st.cells = 0) := hwet.2
        obtain ⟨plans, hloop2, hz⟩ := tokenizeLoop_clean m e false cols tfin 0 [] hcols
        rw [hloop2]
        exact ⟨plans, by simp, hz⟩
  · rw [if_neg hten] at h1
    exact absurd h1 (by simp)

theorem tokenStarPattern_generate_token (v : String) :
    tokenStarPattern (generate_token v) = true := by
  obtain ⟨hlen, htake, hdrop, _⟩ := tokenWrap_parts (b64Encode (utf8Encode v.toList))
  have hcs : (generate_token v).toList =
      "tok_".toList ++ b64Encode (utf8Encode v.toList) ++ "_poc".toList := rfl
  unfold tokenStarPattern
  rw [hcs]
  simp only [Bool.and_eq_true, decide_eq_true_eq]
  exact ⟨⟨by rw [hlen]; omega, htake⟩, hdrop⟩

/-- Witness for C1: the `^tok_.*_poc$`-style pattern accepts every generated
token, and the theorem applies to the committed run on `emptyCellTable`. -/
theorem tokenize_idempotent_witness :
    (∀ v, tokenStarPattern (generate_token v) = true) ∧
    (∃ plans, tokenize tokenStarPattern generate_token ["t1"] "t1" emptyCellColumns false
        tokenizedEmptyCellTable = .ok (⟨0, plans⟩, tokenizedEmptyCellTable) ∧
      ∀ p ∈ plans, p.rows_to_update = 0) :=
  ⟨tokenStarPattern_generate_token,
    tokenize_idempotent tokenStarPattern generate_token ["t1"] "t1" emptyCellColumns
      emptyCellTable
      ⟨2, [⟨⟨"email", "email", ["urn:li:tag:pii-email"]⟩, 2, some "text"⟩]⟩
      tokenizedEmptyCellTable
      tokenStarPattern_generate_token (by rfl)⟩

/-- C1 counterexample to the claim as stated: with the fixed token pattern
`^tok_[A-Za-z0-9+/=]+_poc$` and the base64 token expression, a committed run
over a table holding an empty-string cell writes `tok__poc`, which the pattern
does not match — the second identical invocation reports `rows_to_update = 1`
and mutates the table again. -/
theorem tokenize_second_run_nonzero :
    tokenize tokenRegexMatch generate_token ["t1"] "t1" emptyCellColumns false
        emptyCellTable =
      .ok (⟨2, [⟨⟨"email", "email", ["urn:li:tag:pii-email"]⟩, 2, some "text"⟩]⟩,
        tokenizedEmptyCellTable) ∧
    tokenize tokenRegexMatch generate_token ["t1"] "t1" emptyCellColumns false
        tokenizedEmptyCellTable =
      .ok (⟨1, [⟨⟨"email", "email", ["urn:li:tag:pii-email"]⟩, 1, some "text"⟩]⟩,
        doubleTokenizedTable) :=
  ⟨rfl, rfl⟩

theorem executeUpdate_dry (m : String → Bool) (e : String → String) (t : PgTable)
    (n : String) : executeUpdate m e true t n = (0, t) := by
  unfold executeUpdate
  rw [if_pos rfl]

theorem tokenizeLoop_parity (m : String → Bool) (e : String → String)
    (cols : List TokenizeColumn) :
    ∀ (td tw : PgTable), ((cols.map TokenizeColumn.column).Nodup) →
    (∀ c ∈ cols, lookupColumn td c.column = lookupColumn tw c.column) →
    ∀ (total : Nat) (acc : List ColumnTokenizationPlan),
    tokenizeLoop m e true cols td total acc =
      (tokenizeLoop m e false cols tw total acc).map (fun r => (r.1, r.2.1, td)) := by
  induction cols with
  | nil =>
      intro td tw _ _ total acc
      unfold tokenizeLoop
      rfl
  | cons c rest ih =>
      intro td tw hnodup hagree total acc
      have hnodup' : ((rest.map TokenizeColumn.column).Nodup) := by
        rw [List.map_cons] at hnodup
        exact hnodup.of_cons
      have hnotmem : c.column ∉ rest.map TokenizeColumn.column := by
        rw [List.map_cons] at hnodup
        exact (List.nodup_cons.mp hnodup).1
      have hagree_c := hagree c (by simp)
      have hagree' : ∀ c' ∈ rest, lookupColumn td c'.column = lookupColumn tw c'.column :=
        fun c' hc' => hagree c' (by simp [hc'])
      unfold tokenizeLoop
      rw [hagree_c]
      cases hlk : lookupColumn tw c.column with
      | none => rfl
      | some st =>
          show (if isTextualState st then _ else _) = Except.map _ (if isTextualState st then _ else _)
          by_cases htex : isTextualState st
          · rw [if_pos htex, if_pos htex]
            by_cases hn : 0 < countRowsToTokenize m st.cells
            · rw [if_pos hn, if_pos hn, if_pos rfl, if_neg (by simp)]
              rw [executeUpdate_dry m e td c.column,
                executeUpdate_wet m e tw c.column st hlk]
              rw [show total + countRowsToTokenize m st.cells -
                  countRowsToTokenize m st.cells + countRowsToTokenize m st.cells =
                  total + countRowsToTokenize m st.cells from by omega]
              have hagree2 : ∀ c' ∈ rest, lookupColumn td c'.column =
                  lookupColumn (updateTable m e tw c.column) c'.column := by
                intro c' hc'
                have hne : c'.column ≠ c.column := fun heq =>
                  hnotmem (heq ▸ List.mem_map_of_mem TokenizeColumn.column hc')
                rw [lookupColumn_updateTable_ne m e tw c.column c'.column hne]
                exact hagree' c' hc'
              exact ih td (updateTable m e tw c.column) hnodup' hagree2 _ _
            · rw [if_neg hn, if_neg hn]
              exact ih td tw hnodup' hagree' _ _
          · rw [if_neg htex, if_neg htex]
            exact ih td tw hnodup' hagree' _ _

/-- C7 (amended): provided the targeted column names are pairwise distinct, a
dry run leaves the table byte-identical and its outcome (total and per-column
`rows_to_update`) is exactly the outcome a committed run on the same data
would report — the two modes share the counting path and differ only in the
final table. -/
theorem tokenize_dry_parity (m : String → Bool) (e : String → String)
    (tenants : List String) (tid : String) (cols : List TokenizeColumn)
    (t : PgTable) (hnodup : (cols.map TokenizeColumn.column).Nodup) :
    tokenize m e tenants tid cols true t =
      (tokenize m e tenants tid cols false t).map (fun p => (p.1, t)) := by
  unfold tokenize
  by_cases hten : tid ∈ tenants
  · rw [if_pos hten, if_pos hten]
    rw [tokenizeLoop_parity m e cols t t hnodup (fun _ _ => rfl) 0 []]
    cases tokenizeLoop m e false cols t 0 [] with
    | error err => rfl
    | ok res =>
        obtain ⟨total, plans, tfin⟩ := res
        rfl
  · rw [if_neg hten, if_neg hten]
    rfl

/-- Witness for C7 on the single-column scenario with the fixed token pattern
and base64 expression. -/
theorem tokenize_dry_parity_witness :
    (emptyCellColumns.map TokenizeColumn.column).Nodup ∧
    tokenize tokenRegexMatch generate_token ["t1"] "t1" emptyCellColumns true emptyCellTable =
      (tokenize tokenRegexMatch generate_token ["t1"] "t1" emptyCellColumns false
        emptyCellTable).map (fun p => (p.1, emptyCellTable)) :=
  ⟨by decide,
    tokenize_dry_parity tokenRegexMatch generate_token ["t1"] "t1" emptyCellColumns
      emptyCellTable (by decide)⟩

/-- C7 counterexample to the claim as stated: when the same column is listed
twice, the dry-run plan reports `1` for the second occurrence but the
committed run reports `0` for it (the first occurrence's update empties the
predicate) — per-column dry-run parity fails, though the dry-run table is
still byte-identical. -/
theorem tokenize_dry_parity_fails_duplicate :
    tokenize tokenRegexMatch generate_token ["t1"] "t1" dupColumns true dupColumnTable =
      .ok (⟨2, [⟨⟨"email", "email", []⟩, 1, some "text"⟩,
        ⟨⟨"email", "email", []⟩, 1, some "text"⟩]⟩, dupColumnTable) ∧
    tokenize tokenRegexMatch generate_token ["t1"] "t1" dupColumns false dupColumnTable =
      .ok (⟨1, [⟨⟨"email", "email", []⟩, 1, some "text"⟩,
        ⟨⟨"email", "email", []⟩, 0, some "text"⟩]⟩,
        [⟨"email", "text", "text", [some "tok_eA==_poc"]⟩]) :=
  ⟨rfl, rfl⟩
